import Mathlib

/-!
Verification of `code_snippets` (two Python utilities) against its specification.

Part 1 embeds `code_snippets/np.py` (`np_trim_upper`), modelling numpy arrays of
floats as `List ℚ` and the numpy calls it composes (`np.quantile` with the
default linear interpolation, `np.clip`, `ndarray.max`) as exact rational
functions.

Part 2 embeds `src/rosemary/submit.py`: the helpers `multiline_to_singleline`
and `hours_to_slurm_time`, and the `submit_job_slurm` entry point.  Filesystem,
environment and subprocess effects are modelled as an explicit event trace; the
external inputs the code consumes (current directory, presence of the
environment variable, per-iteration script file names, per-iteration subprocess
outcomes) are passed in as an explicit `PyEnv` record.
-/

/-! ### Part 1: np.py -/

/-- `np.quantile(x, q)` with the default (linear-interpolation) method:
sort the data, set `h = q * (n - 1)`, and interpolate between the values at
positions `⌊h⌋` and `⌈h⌉`. -/
def np_quantile (x : List ℚ) (q : ℚ) : ℚ :=
  let s := x.insertionSort (· ≤ ·)
  let h : ℚ := q * ((s.length : ℚ) - 1)
  s.getD (⌊h⌋.toNat) 0 + (h - ⌊h⌋) * (s.getD (⌈h⌉.toNat) 0 - s.getD (⌊h⌋.toNat) 0)

/-- `np.clip(v, lo, hi)`, which numpy documents as
`minimum(hi, maximum(v, lo))` (so `hi` wins when `lo > hi`). -/
def np_clip (v lo hi : ℚ) : ℚ := min hi (max v lo)

/-- `ndarray.max()` of a list (numpy raises on an empty array; the `0` default
here is never relevant because the output below is empty in that case). -/
def np_max : List ℚ → ℚ
  | [] => 0
  | v :: t => t.foldl max v

/-- `np_trim_upper(x, α)` from `code_snippets/np.py`: trim values above the
`1-α` quantile, then divide by `max(1e-3, max of the clipped array)`. -/
def np_trim_upper (x : List ℚ) (α : ℚ) : List ℚ :=
  let x_max := np_quantile x (1 - α)
  let x1 := x.map (fun v => np_clip v 0 x_max)
  x1.map (fun v => v / max (1/1000) (np_max x1))

/-! ### Part 2: submit.py — definitions -/

/-- Python's default whitespace set for `str.strip` (ASCII range). -/
def isPySpace (c : Char) : Bool :=
  c == ' ' || c == '\t' || c == '\n' || c == '\r' || c == '\x0B' || c == '\x0C'

/-- Removal of trailing whitespace, as the right half of python `str.strip`. -/
def pyStripRight : List Char → List Char
  | [] => []
  | c :: r =>
      let t := pyStripRight r
      if t.isEmpty && isPySpace c then [] else c :: t

/-- Python `str.strip()`: drop leading and trailing whitespace. -/
def pyStrip (l : List Char) : List Char := pyStripRight (l.dropWhile isPySpace)

/-- `re.sub(r'\\(?![$])', '', cmd)`: delete every backslash that is not
immediately followed by a dollar sign. -/
def subBackslashKeepDollar : List Char → List Char
  | [] => []
  | c :: r =>
      if c = '\\' then
        if r.head? = some '$' then c :: subBackslashKeepDollar r
        else subBackslashKeepDollar r
      else c :: subBackslashKeepDollar r

/-- `cmd.replace('\n', '')`: delete every newline character. -/
def removeNewlines (l : List Char) : List Char := l.filter (fun c => c != '\n')

/-- `re.sub(' +', ' ', cmd)`: squeeze every run of spaces to a single space
(keeping the last space of each run, which yields the same string). -/
def collapseSpaces : List Char → List Char
  | [] => []
  | c :: r =>
      if c = ' ' ∧ r.head? = some ' ' then collapseSpaces r
      else c :: collapseSpaces r

/-- `multiline_to_singleline` from submit.py: strip, drop backslashes (except
before `$`), drop newlines, squeeze spaces, strip again. -/
def multiline_to_singleline (cmd : String) : String :=
  ⟨pyStrip (collapseSpaces (removeNewlines (subBackslashKeepDollar (pyStrip cmd.data))))⟩

/-- Checker: every backslash in the list is immediately followed by `$`. -/
def goodBS : List Char → Bool
  | [] => true
  | c :: r => (c != '\\' || r.head? == some '$') && goodBS r

/-- Checker: the list has no two adjacent spaces. -/
def noDoubleSpaceB : List Char → Bool
  | [] => true
  | c :: r => !(c == ' ' && r.head? == some ' ') && noDoubleSpaceB r

/-- Checker: the list neither starts nor ends with a whitespace character. -/
def noEndWS (l : List Char) : Bool :=
  (match l.head? with | none => true | some c => !isPySpace c) &&
  (match l.getLast? with | none => true | some c => !isPySpace c)

/-- Little-endian decimal digits of `n`, with enough fuel (structurally
recursive so that the kernel can evaluate it). -/
def natDecAux : ℕ → ℕ → List Char
  | 0, _ => []
  | _+1, 0 => []
  | f+1, n+1 => Nat.digitChar ((n+1) % 10) :: natDecAux f ((n+1) / 10)

/-- Decimal rendering of a natural number, as python `str`/f-strings do. -/
def natDec (n : ℕ) : String :=
  if n = 0 then "0" else String.mk (natDecAux n n).reverse

/-- Decimal rendering of an integer, as python `str`. -/
def intDec (i : ℤ) : String := if i < 0 then "-" ++ natDec i.natAbs else natDec i.natAbs

/-- Python `f"{i:02d}"`: pad with a leading zero to width two. -/
def pad2 (i : ℤ) : String :=
  let s := intDec i
  if s.length < 2 then "0" ++ s else s

/-- Round a rational to the nearest integer, ties to even — the rounding that
python applies to fractional microseconds when building a `timedelta` from a
float. -/
def rhe (q : ℚ) : ℤ :=
  if q - ⌊q⌋ < 1/2 then ⌊q⌋
  else if 1/2 < q - ⌊q⌋ then ⌊q⌋ + 1
  else if ⌊q⌋ % 2 = 0 then ⌊q⌋ else ⌊q⌋ + 1

/-- `hours_to_slurm_time` from submit.py: `timedelta(hours=hours)` normalized
to `(days, seconds, microseconds)` with `days = floor(total/86400s)`, then
rendered as `DD-HH:MM:SS` (`datetime(1,1,1,h,m,s).strftime`, zero-padded).
All divisors are positive, so `ℤ`'s `/` and `%` (euclidean) coincide with
python's floor division and nonnegative modulus. -/
def hours_to_slurm_time (hours : ℚ) : String :=
  let totalUs : ℤ := rhe (hours * 3600000000)
  let days : ℤ := totalUs / 86400000000
  let total_seconds : ℤ := (totalUs % 86400000000) / 1000000
  let h : ℤ := total_seconds / 3600
  let remainder : ℤ := total_seconds % 3600
  let m : ℤ := remainder / 60
  let s : ℤ := remainder % 60
  pad2 days ++ "-" ++ pad2 h ++ ":" ++ pad2 m ++ ":" ++ pad2 s

/-- Reference rendering of a whole number of seconds as `DD-HH:MM:SS`, with
the day field obtained by integer division of the total by 24 hours. -/
def fmtSecs (s : ℕ) : String :=
  pad2 ((s / 86400 : ℕ) : ℤ) ++ "-" ++ pad2 ((s % 86400 / 3600 : ℕ) : ℤ) ++ ":" ++
    pad2 ((s % 3600 / 60 : ℕ) : ℤ) ++ ":" ++ pad2 ((s % 60 : ℕ) : ℤ)

/-- Side effects of `submit_job_slurm`, in program order. -/
inductive Ev where
  | makedirs (dir : String)
  | envPop (key : String)
  | writeScript (path : String) (content : String)
  | popen (argv : List String)
  | printExc
deriving DecidableEq

/-- The python exceptions the function can raise to its caller. -/
inductive PyErr where
  | valueError (msg : String)
deriving DecidableEq

/-- One entry of the returned `info` list, plus ghost fields recording the
script text, command text, output log path and directive list used for that
iteration. `job_id = none` models the dict without a `'job_id'` key
(dry-run mode). -/
structure JobInfo where
  args : String
  job_id : Option (ℕ ⊕ String)
  script : String
  cmd : String
  log_path : String
  sbatch_args : List (String × String)
deriving DecidableEq

/-- The keyword parameters of `submit_job_slurm`, with the source defaults.
Values the code renders with f-strings are kept in their python types; the
optional `exclude` models passing `None`. -/
structure Cfg where
  shell_scripts : String
  job_name : String := "wpq-job"
  partition : String := "learnai"
  nodes : ℕ := 1
  num_cpus : ℕ := 1
  cpu_mem : ℕ := 3
  num_gpus : ℕ := 0
  time : ℚ := 24
  log_path : Option String := none
  test_run : Bool := false
  num_jobs : ℕ := 1
  exclude : Option String := none
  sbatch_dir : String := "/fsx/wpq/.sbatch"
  shell_scripts_modification_fn : Option (String → String) := none

/-- The external world the code reads: current directory, whether
`SLURM_MEM_PER_CPU` is set, the timestamp-uuid script file name generated at
iteration `i`, and the outcome of the `sbatch` subprocess at iteration `i`
(`none` models the subprocess raising; `some out` is its decoded stdout). -/
structure PyEnv where
  cwd : String
  envHasMemPerCpu : Bool
  scriptName : ℕ → String
  sbatchOutcome : ℕ → Option String

/-- `os.path.basename`: everything after the last `/` (the whole string when
there is no slash). -/
def osBasename (p : String) : String :=
  ⟨(p.data.reverse.takeWhile (fun c => c != '/')).reverse⟩

/-- `os.path.dirname`: everything up to the last `/`, with trailing slashes
stripped unless the head is all slashes. -/
def osDirname (p : String) : String :=
  let h := (p.data.reverse.dropWhile (fun c => c != '/')).reverse
  if h.all (fun c => c == '/') then ⟨h⟩
  else ⟨(h.reverse.dropWhile (fun c => c == '/')).reverse⟩

/-- `os.path.join` for two components (posix). -/
def osPathJoin (a b : String) : String :=
  if b.data.head? = some '/' then b
  else if a = "" ∨ a.data.getLast? = some '/' then a ++ b
  else a ++ "/" ++ b

/-- Does `pat` start the list? -/
def startsWithL : List Char → List Char → Bool
  | [], _ => true
  | _ :: _, [] => false
  | p :: ps, c :: cs => p == c && startsWithL ps cs

/-- Python's substring test `pat in l`. -/
def hasSub (pat : List Char) : List Char → Bool
  | [] => startsWithL pat []
  | c :: t => startsWithL pat (c :: t) || hasSub pat t

/-- Python `str.split('.')`: split at every dot, keeping empty pieces. -/
def splitOnDot : List Char → List (List Char)
  | [] => [[]]
  | c :: r =>
      match splitOnDot r with
      | [] => [[]]
      | h :: t => if c = '.' then [] :: h :: t else (c :: h) :: t

/-- `str.split('.')` packaged on `String`. -/
def splitDotsStr (s : String) : List String := (splitOnDot s.data).map (fun l => ⟨l⟩)

/-- Whitespace-splitting worker (accumulator holds the current word
reversed). -/
def wsSplitAux (cur : List Char) : List Char → List (List Char)
  | [] => if cur.isEmpty then [] else [cur.reverse]
  | c :: r =>
      if isPySpace c then
        if cur.isEmpty then wsSplitAux [] r else cur.reverse :: wsSplitAux [] r
      else wsSplitAux (c :: cur) r

/-- `shlex.split` restricted to inputs without quotes or escapes (the only
inputs the code feeds it): split on whitespace runs. -/
def shlexSplitSimple (s : String) : List String :=
  (wsSplitAux [] s.data).map (fun l => ⟨l⟩)

/-- `str(job_id)`: the loop variable is an `int` or a raw string. -/
def jobIdStr : ℕ ⊕ String → String
  | Sum.inl n => natDec n
  | Sum.inr s => s

/-- Value of a digit run, as `int()` of the matched group. -/
def digitsToNat (l : List Char) : ℕ := l.foldl (fun a c => 10 * a + (c.toNat - 48)) 0

/-- Strip an exact literal from the front, returning the remainder. -/
def dropLit : List Char → List Char → Option (List Char)
  | [], l => some l
  | _ :: _, [] => none
  | p :: ps, c :: cs => if p = c then dropLit ps cs else none

/-- `re.search(r"Submitted batch job (\d+)", stdout)`: first position where
the literal is followed by at least one digit; the group is the maximal digit
run there. -/
def searchSubmitted : List Char → Option ℕ
  | [] => none
  | c :: t =>
      match dropLit "Submitted batch job ".data (c :: t) with
      | some rest =>
          let ds := rest.takeWhile Char.isDigit
          if ds.isEmpty then searchSubmitted t else some (digitsToNat ds)
      | none => searchSubmitted t

/-- `int(match.group(1)) if match else stdout`. -/
def parseJobId (stdout : String) : ℕ ⊕ String :=
  match searchSubmitted stdout.data with
  | some n => Sum.inl n
  | none => Sum.inr stdout

/-- The loop-carried `job_id` variable at the start of iteration `i`:
initially the sentinel `"<job_id>"`, updated only by a successful subprocess
call (`test_run` skips the whole block; an exception leaves it unchanged). -/
def chainIds (cfg : Cfg) (ext : PyEnv) : ℕ → ℕ ⊕ String
  | 0 => Sum.inr "<job_id>"
  | i + 1 =>
      if cfg.test_run then chainIds cfg ext i
      else
        match ext.sbatchOutcome i with
        | none => chainIds cfg ext i
        | some out => parseJobId out

/-- This iteration's command text (lines 128–132 of submit.py). -/
def iterCmd (cfg : Cfg) (i : ℕ) : String :=
  match cfg.shell_scripts_modification_fn with
  | some f => if i ≠ 0 then f cfg.shell_scripts else cfg.shell_scripts
  | none => cfg.shell_scripts

/-- This iteration's output log path (lines 123–126):
`'.'.join([noext + f'_{i+1}:{num_jobs}', ext])` under `log_dir` when
`num_jobs > 1`, the unmodified path otherwise. -/
def iterLogPath (cfg : Cfg) (log_path log_dir noext fext : String) (i : ℕ) : String :=
  if 1 < cfg.num_jobs then
    osPathJoin log_dir (noext ++ "_" ++ natDec (i + 1) ++ ":" ++ natDec cfg.num_jobs ++ "." ++ fext)
  else log_path

/-- The ordered `sbatch` directive list of iteration `i` (lines 134–157).
All values the code would render are strings here, so the `v is not None`
skip at line 162 never fires; the conditional entries (`gres`, `exclude`,
`dependency`) are included exactly when the code appends them. -/
def iterArgsList (cfg : Cfg) (lp : String) (jid : ℕ ⊕ String) (i : ℕ) :
    List (String × String) :=
  [("job-name", cfg.job_name), ("partition", cfg.partition), ("nodes", natDec cfg.nodes),
   ("cpus-per-task", natDec cfg.num_cpus), ("mem", natDec cfg.cpu_mem ++ "gb")] ++
  (if 0 < cfg.num_gpus then [("gres", "gpu:" ++ natDec cfg.num_gpus)] else []) ++
  [("time", hours_to_slurm_time cfg.time), ("output", lp)] ++
  (match cfg.exclude with | some e => [("exclude", e)] | none => []) ++
  (if i ≠ 0 then [("dependency", "afterok:" ++ jobIdStr jid)] else [])

/-- One `#SBATCH --k=v` line per directive, accumulated in order
(lines 161–163). -/
def renderArgs : List (String × String) → String
  | [] => ""
  | kv :: t => "#SBATCH --" ++ kv.1 ++ "=" ++ kv.2 ++ "\n" ++ renderArgs t

/-- The rendered script (lines 159–165). -/
def scriptOf (args : List (String × String)) (cmd : String) : String :=
  "#!/bin/bash\n\n" ++ renderArgs args ++ "\n" ++ cmd

/-- Events and result record of one loop iteration. -/
structure IterOut where
  events : List Ev
  info : JobInfo

/-- One iteration of the submission loop (lines 122–197): write the script,
then unless `test_run`, run `sbatch` and record the (possibly unchanged)
job id. -/
def iterResult (cfg : Cfg) (ext : PyEnv) (log_path log_dir noext fext : String) (i : ℕ) :
    IterOut :=
  let lp := iterLogPath cfg log_path log_dir noext fext i
  let cmd := iterCmd cfg i
  let sargs := iterArgsList cfg lp (chainIds cfg ext i) i
  let s := scriptOf sargs cmd
  let spath := osPathJoin cfg.sbatch_dir (ext.scriptName i)
  let argv := shlexSplitSimple ("sbatch " ++ spath)
  let argsStr := String.intercalate " " argv
  if cfg.test_run then
    { events := [Ev.writeScript spath s],
      info := { args := argsStr, job_id := none, script := s, cmd := cmd,
                log_path := lp, sbatch_args := sargs } }
  else
    { events :=
        match ext.sbatchOutcome i with
        | none => [Ev.writeScript spath s, Ev.popen argv, Ev.printExc]
        | some _ => [Ev.writeScript spath s, Ev.popen argv]
      info := { args := argsStr, job_id := some (chainIds cfg ext (i + 1)), script := s,
                cmd := cmd, log_path := lp, sbatch_args := sargs } }

/-- `submit_job_slurm` on a single string command: the event trace in program
order, and either the raised exception or the returned list. The path
validation (line 106) happens before any event; `makedirs` and the
environment pop (lines 109–114) happen before the basename split
(lines 116–118), whose unpacking raises `ValueError` unless it yields
exactly two parts. -/
def submit_job_slurm (cfg : Cfg) (ext : PyEnv) : List Ev × Except PyErr (List JobInfo) :=
  let log_path := cfg.log_path.getD (osPathJoin ext.cwd "%J.out")
  if hasSub ".out".data log_path.data then
    let evs0 := Ev.makedirs cfg.sbatch_dir ::
      (if ext.envHasMemPerCpu then [Ev.envPop "SLURM_MEM_PER_CPU"] else [])
    match splitDotsStr (osBasename log_path) with
    | [noext, fext] =>
        let iters := (List.range cfg.num_jobs).map
          (fun i => iterResult cfg ext log_path (osDirname log_path) noext fext i)
        (evs0 ++ (iters.map IterOut.events).flatten, Except.ok (iters.map IterOut.info))
    | _ => (evs0, Except.error (PyErr.valueError "values to unpack (expected 2)"))
  else ([], Except.error (PyErr.valueError "log_path must contain \".out\""))

/-- Result tree for the list-accepting wrapper: a leaf for a string argument,
a list of sub-results for a list argument. -/
inductive SubmitRes where
  | leaf (trace : List Ev) (result : Except PyErr (List JobInfo))
  | nested (rs : List SubmitRes)

/-- The full entry point with its `isinstance(shell_scripts, list)` branch
(lines 85–102), fuel-indexed: the comprehension recurses on the whole
unchanged list (`x` is unused), and exhausted fuel (`none`) models python's
`RecursionError` / non-termination. -/
def submit_any (cfg : Cfg) (ext : PyEnv) : ℕ → String ⊕ List String → Option SubmitRes
  | 0, _ => none
  | _ + 1, Sum.inl s =>
      some (SubmitRes.leaf (submit_job_slurm { cfg with shell_scripts := s } ext).1
        (submit_job_slurm { cfg with shell_scripts := s } ext).2)
  | n + 1, Sum.inr l =>
      (l.mapM (fun _x => submit_any cfg ext n (Sum.inr l))).map SubmitRes.nested

/-- Recognizer for script-writing events. -/
def isWriteEv : Ev → Bool
  | Ev.writeScript _ _ => true
  | _ => false

/-- Concrete external world used for witnesses (every `sbatch` call
succeeds). -/
def ext0 : PyEnv :=
  { cwd := "/home/user", envHasMemPerCpu := true,
    scriptName := fun i => "2024-01-01_00:00:00_uuid" ++ natDec i ++ ".sh",
    sbatchOutcome := fun _ => some "Submitted batch job 123\n" }

/-- Concrete external world in which every `sbatch` call raises. -/
def envFail : PyEnv :=
  { cwd := "/home/user", envHasMemPerCpu := true,
    scriptName := fun i => "2024-01-01_00:00:00_uuid" ++ natDec i ++ ".sh",
    sbatchOutcome := fun _ => none }

/-- Concrete requests used for witnesses. -/
def cfgBadPath : Cfg := { shell_scripts := "echo hi", log_path := some "run.txt" }

def cfgMultiDot : Cfg := { shell_scripts := "echo hi", log_path := some "a.b.out" }

def cfgChain : Cfg :=
  { shell_scripts := "echo foo; echo bar", log_path := some "run.out", num_jobs := 2,
    shell_scripts_modification_fn := some (fun s => s ++ " v2") }

def cfgDry : Cfg :=
  { shell_scripts := "echo hi", log_path := some "run.out", num_jobs := 2,
    test_run := true }

lemma le_foldl_max (t : List ℚ) : ∀ a b : ℚ, (b ≤ a ∨ b ∈ t) → b ≤ t.foldl max a := by
  induction t with
  | nil => intro a b h; simpa using h
  | cons c s ih =>
      intro a b h
      simp only [List.foldl_cons]
      rcases h with h | h
      · exact ih (max a c) b (Or.inl (le_trans h (le_max_left _ _)))
      · rcases List.mem_cons.1 h with rfl | h
        · exact ih (max a b) b (Or.inl (le_max_right _ _))
        · exact ih (max a c) b (Or.inr h)

lemma mem_le_np_max (l : List ℚ) (v : ℚ) (h : v ∈ l) : v ≤ np_max l := by
  cases l with
  | nil => cases h
  | cons a t =>
      simp only [np_max]
      rcases List.mem_cons.1 h with rfl | h
      · exact le_foldl_max t v v (Or.inl le_rfl)
      · exact le_foldl_max t a v (Or.inr h)

lemma getD_nonneg (l : List ℚ) (k : ℕ) (h : ∀ v ∈ l, 0 ≤ v) :
    0 ≤ l.getD k 0 := by
  induction l generalizing k with
  | nil => simp [List.getD]
  | cons a t ih =>
      cases k with
      | zero => simpa using h a (List.mem_cons_self _ _)
      | succ k => simpa using ih k (fun v hv => h v (List.mem_cons_of_mem _ hv))

lemma interp_nonneg (a b h : ℚ) (ha : 0 ≤ a) (hb : 0 ≤ b) :
    0 ≤ a + (h - ⌊h⌋) * (b - a) := by
  have ht0 : (0:ℚ) ≤ h - ⌊h⌋ := sub_nonneg.2 (Int.floor_le _)
  have ht1 : h - (⌊h⌋ : ℚ) < 1 := by
    have := Int.lt_floor_add_one h
    linarith
  nlinarith

lemma np_quantile_nonneg (x : List ℚ) (q : ℚ) (hx : ∀ v ∈ x, 0 ≤ v) :
    0 ≤ np_quantile x q := by
  have hs : ∀ v ∈ x.insertionSort (· ≤ ·), 0 ≤ v := by
    intro v hv
    exact hx v ((List.perm_insertionSort (· ≤ ·) x).mem_iff.1 hv)
  simp only [np_quantile]
  exact interp_nonneg _ _ _ (getD_nonneg _ _ hs) (getD_nonneg _ _ hs)

/-- C1 (amended): for every array with non-negative entries and every trim
fraction `0 ≤ α < 1`, every value of `np_trim_upper x α` lies in `[0, 1]`
(in particular for the all-zero and near-zero arrays). -/
theorem C1_np_trim_upper_unit_range (x : List ℚ) (α : ℚ)
    (hx : ∀ v ∈ x, 0 ≤ v) (hα0 : 0 ≤ α) (hα1 : α < 1) :
    ∀ y ∈ np_trim_upper x α, 0 ≤ y ∧ y ≤ 1 := by
  intro y hy
  simp only [np_trim_upper, List.mem_map] at hy
  obtain ⟨v, hv, rfl⟩ := hy
  obtain ⟨w, hw, rfl⟩ := hv
  set m := np_quantile x (1 - α) with hm
  have hm0 : 0 ≤ m := np_quantile_nonneg x (1 - α) hx
  set x1 := x.map (fun v => np_clip v 0 m) with hx1
  have hc0 : 0 ≤ np_clip w 0 m := le_min hm0 (le_max_right _ _)
  have hcmem : np_clip w 0 m ∈ x1 := by
    rw [hx1]; exact List.mem_map_of_mem _ hw
  have hcM : np_clip w 0 m ≤ np_max x1 := mem_le_np_max _ _ hcmem
  have hd : (0:ℚ) < max (1/1000) (np_max x1) :=
    lt_of_lt_of_le (by norm_num) (le_max_left _ _)
  have hcd : np_clip w 0 m ≤ max (1/1000) (np_max x1) :=
    le_trans hcM (le_max_right _ _)
  exact ⟨div_nonneg hc0 (le_of_lt hd), (div_le_one hd).2 hcd⟩

/-- C1 witness: concrete instance of the amended theorem at `x = [0, 2]`,
`α = 1/200`. -/
theorem C1_np_trim_upper_unit_range_witness :
    (np_trim_upper [(0:ℚ), 2] (1/200)).all (fun y => decide (0 ≤ y ∧ y ≤ 1)) = true := by
  have h := C1_np_trim_upper_unit_range [(0:ℚ), 2] (1/200)
    (by intro v hv; rcases List.mem_cons.1 hv with rfl | hv <;> simp_all)
    (by norm_num) (by norm_num)
  exact List.all_eq_true.2 (fun y hy => decide_eq_true (h y hy))

/-- C1 counterexample: as stated (over every numeric array), the claim is
false: on the all-negative array `[-1]` with the default `α = 0.005`, the
output is `[-1000]`, far outside `[0, 1]`. -/
theorem C1_counterexample :
    ¬ (∀ y ∈ np_trim_upper [(-1 : ℚ)] (1/200), 0 ≤ y ∧ y ≤ 1) := by
  have hval : np_trim_upper [(-1 : ℚ)] (1/200) = [-1000] := by
    norm_num [np_trim_upper, np_quantile, np_clip, np_max,
      List.insertionSort, List.orderedInsert, List.getD, min_def, max_def]
  intro h
  have := h (-1000) (by rw [hval]; exact List.mem_singleton.2 rfl)
  linarith [this.1]

/-! ### C5: multiline_to_singleline -/

lemma goodBS_cons_iff (c : Char) (r : List Char) :
    goodBS (c :: r) = true ↔ ((c = '\\' → r.head? = some '$') ∧ goodBS r = true) := by
  constructor <;> intro h <;> by_cases hc : c = '\\' <;> simp_all [goodBS]

lemma noDoubleSpaceB_cons_iff (c : Char) (r : List Char) :
    noDoubleSpaceB (c :: r) = true ↔
      (¬(c = ' ' ∧ r.head? = some ' ') ∧ noDoubleSpaceB r = true) := by
  constructor <;> intro h <;> by_cases hc : c = ' ' <;> simp_all [noDoubleSpaceB]

lemma collapseSpaces_head? (l : List Char) : (collapseSpaces l).head? = l.head? := by
  induction l with
  | nil => rfl
  | cons c r ih =>
      by_cases h : c = ' ' ∧ r.head? = some ' '
      · simp only [collapseSpaces, if_pos h]
        rw [ih, h.2, h.1]
        rfl
      · simp only [collapseSpaces, if_neg h, List.head?_cons]

lemma mem_of_mem_collapseSpaces {l : List Char} {a : Char}
    (h : a ∈ collapseSpaces l) : a ∈ l := by
  induction l with
  | nil => simpa [collapseSpaces] using h
  | cons c r ih =>
      by_cases hc : c = ' ' ∧ r.head? = some ' '
      · rw [collapseSpaces, if_pos hc] at h
        exact List.mem_cons_of_mem _ (ih h)
      · rw [collapseSpaces, if_neg hc] at h
        rcases List.mem_cons.1 h with rfl | h
        · exact List.mem_cons_self _ _
        · exact List.mem_cons_of_mem _ (ih h)

lemma noDoubleSpaceB_collapseSpaces (l : List Char) :
    noDoubleSpaceB (collapseSpaces l) = true := by
  induction l with
  | nil => rfl
  | cons c r ih =>
      by_cases hc : c = ' ' ∧ r.head? = some ' '
      · rw [collapseSpaces, if_pos hc]; exact ih
      · rw [collapseSpaces, if_neg hc]
        refine (noDoubleSpaceB_cons_iff _ _).2 ⟨?_, ih⟩
        rw [collapseSpaces_head?]
        exact hc

lemma goodBS_tail {c : Char} {r : List Char} (h : goodBS (c :: r) = true) :
    goodBS r = true := ((goodBS_cons_iff c r).1 h).2

lemma noDoubleSpaceB_tail {c : Char} {r : List Char}
    (h : noDoubleSpaceB (c :: r) = true) : noDoubleSpaceB r = true :=
  ((noDoubleSpaceB_cons_iff c r).1 h).2

lemma subBS_head_dollar {r : List Char} (h : r.head? = some '$') :
    (subBackslashKeepDollar r).head? = some '$' := by
  cases r with
  | nil => cases h
  | cons c t =>
      simp only [List.head?_cons, Option.some.injEq] at h
      subst h
      simp [subBackslashKeepDollar]

lemma goodBS_subBS (l : List Char) : goodBS (subBackslashKeepDollar l) = true := by
  induction l with
  | nil => rfl
  | cons c r ih =>
      by_cases hc : c = '\\'
      · subst hc
        by_cases hh : r.head? = some '$'
        · rw [subBackslashKeepDollar, if_pos rfl, if_pos hh]
          exact (goodBS_cons_iff _ _).2 ⟨fun _ => subBS_head_dollar hh, ih⟩
        · rw [subBackslashKeepDollar, if_pos rfl, if_neg hh]; exact ih
      · rw [subBackslashKeepDollar, if_neg hc]
        exact (goodBS_cons_iff _ _).2 ⟨fun h => absurd h hc, ih⟩

lemma removeNewlines_head_dollar {r : List Char} (h : r.head? = some '$') :
    (removeNewlines r).head? = some '$' := by
  cases r with
  | nil => cases h
  | cons c t =>
      simp only [List.head?_cons, Option.some.injEq] at h
      subst h
      simp [removeNewlines, List.filter_cons]

lemma goodBS_removeNewlines {l : List Char} (h : goodBS l = true) :
    goodBS (removeNewlines l) = true := by
  induction l with
  | nil => rfl
  | cons c r ih =>
      obtain ⟨h1, h2⟩ := (goodBS_cons_iff c r).1 h
      by_cases hc : c = '\n'
      · subst hc
        simpa [removeNewlines, List.filter_cons] using ih h2
      · have hkeep : removeNewlines (c :: r) = c :: removeNewlines r := by
          simp [removeNewlines, List.filter_cons, hc]
        rw [hkeep]
        refine (goodBS_cons_iff _ _).2 ⟨fun hbs => ?_, ih h2⟩
        exact removeNewlines_head_dollar (h1 hbs)

lemma collapseSpaces_head_dollar {r : List Char} (h : r.head? = some '$') :
    (collapseSpaces r).head? = some '$' := by
  rw [collapseSpaces_head?]; exact h

lemma goodBS_collapseSpaces {l : List Char} (h : goodBS l = true) :
    goodBS (collapseSpaces l) = true := by
  induction l with
  | nil => rfl
  | cons c r ih =>
      obtain ⟨h1, h2⟩ := (goodBS_cons_iff c r).1 h
      by_cases hc : c = ' ' ∧ r.head? = some ' '
      · rw [collapseSpaces, if_pos hc]; exact ih h2
      · rw [collapseSpaces, if_neg hc]
        refine (goodBS_cons_iff _ _).2 ⟨fun hbs => ?_, ih h2⟩
        exact collapseSpaces_head_dollar (h1 hbs)

lemma goodBS_dropWhile (p : Char → Bool) {l : List Char} (h : goodBS l = true) :
    goodBS (l.dropWhile p) = true := by
  induction l with
  | nil => exact h
  | cons c r ih =>
      by_cases hp : p c = true
      · rw [List.dropWhile_cons_of_pos hp]; exact ih (goodBS_tail h)
      · rw [List.dropWhile_cons_of_neg hp]; exact h

lemma noDoubleSpaceB_dropWhile (p : Char → Bool) {l : List Char}
    (h : noDoubleSpaceB l = true) : noDoubleSpaceB (l.dropWhile p) = true := by
  induction l with
  | nil => exact h
  | cons c r ih =>
      by_cases hp : p c = true
      · rw [List.dropWhile_cons_of_pos hp]; exact ih (noDoubleSpaceB_tail h)
      · rw [List.dropWhile_cons_of_neg hp]; exact h

lemma pyStripRight_cases (c : Char) (r : List Char) :
    pyStripRight (c :: r) = [] ∨ pyStripRight (c :: r) = c :: pyStripRight r := by
  by_cases h : ((pyStripRight r).isEmpty && isPySpace c) = true
  · left; simp [pyStripRight, h]
  · right; simp [pyStripRight, h]

lemma mem_of_mem_pyStripRight {l : List Char} {a : Char}
    (h : a ∈ pyStripRight l) : a ∈ l := by
  induction l with
  | nil => simpa [pyStripRight] using h
  | cons c r ih =>
      rcases pyStripRight_cases c r with e | e
      · rw [e] at h; cases h
      · rw [e] at h
        rcases List.mem_cons.1 h with rfl | h
        · exact List.mem_cons_self _ _
        · exact List.mem_cons_of_mem _ (ih h)

lemma pyStripRight_head? (l : List Char) :
    (pyStripRight l).head? = none ∨ (pyStripRight l).head? = l.head? := by
  cases l with
  | nil => left; rfl
  | cons c r =>
      rcases pyStripRight_cases c r with e | e
      · left; rw [e]; rfl
      · right; rw [e]; rfl

lemma goodBS_pyStripRight {l : List Char} (h : goodBS l = true) :
    goodBS (pyStripRight l) = true := by
  induction l with
  | nil => exact h
  | cons c r ih =>
      obtain ⟨h1, h2⟩ := (goodBS_cons_iff c r).1 h
      rcases pyStripRight_cases c r with e | e
      · rw [e]; rfl
      · rw [e]
        refine (goodBS_cons_iff _ _).2 ⟨fun hbs => ?_, ih h2⟩
        have hd := h1 hbs
        rcases pyStripRight_head? r with e2 | e2
        · exfalso
          cases r with
          | nil => cases hd
          | cons d t =>
              simp only [List.head?_cons, Option.some.injEq] at hd
              subst hd
              rcases pyStripRight_cases '$' t with e3 | e3
              · simp only [pyStripRight] at e3
                by_cases hb : ((pyStripRight t).isEmpty && isPySpace '$') = true
                · simp [isPySpace] at hb
                · rw [if_neg hb] at e3; cases e3
              · rw [e3] at e2; cases e2
        · rw [e2]; exact hd

lemma noDoubleSpaceB_pyStripRight {l : List Char} (h : noDoubleSpaceB l = true) :
    noDoubleSpaceB (pyStripRight l) = true := by
  induction l with
  | nil => exact h
  | cons c r ih =>
      obtain ⟨h1, h2⟩ := (noDoubleSpaceB_cons_iff c r).1 h
      rcases pyStripRight_cases c r with e | e
      · rw [e]; rfl
      · rw [e]
        refine (noDoubleSpaceB_cons_iff _ _).2 ⟨fun hcc => ?_, ih h2⟩
        rcases pyStripRight_head? r with e2 | e2
        · rw [e2] at hcc; cases hcc.2
        · rw [e2] at hcc; exact h1 hcc

lemma pyStripRight_getLast?_not_ws {l : List Char} :
    ∀ {c : Char}, (pyStripRight l).getLast? = some c → isPySpace c = false := by
  induction l with
  | nil => intro c h; cases h
  | cons a r ih =>
      intro c h
      by_cases hb : ((pyStripRight r).isEmpty && isPySpace a) = true
      · simp [pyStripRight, hb] at h
      · have e : pyStripRight (a :: r) = a :: pyStripRight r := by
          simp [pyStripRight, hb]
        rw [e] at h
        cases hr : pyStripRight r with
        | nil =>
            rw [hr] at h
            simp only [List.getLast?_singleton, Option.some.injEq] at h
            subst h
            rw [hr] at hb
            simpa [List.isEmpty] using hb
        | cons d t =>
            rw [hr, List.getLast?_cons_cons] at h
            exact ih (by rw [hr]; exact h)

lemma head?_dropWhile_not {p : Char → Bool} {l : List Char} :
    ∀ {c : Char}, (l.dropWhile p).head? = some c → p c = false := by
  induction l with
  | nil => intro c h; cases h
  | cons a r ih =>
      intro c h
      by_cases hp : p a = true
      · rw [List.dropWhile_cons_of_pos hp] at h; exact ih h
      · rw [List.dropWhile_cons_of_neg hp, List.head?_cons] at h
        cases h
        simpa using hp

/-- C5 (amended): `multiline_to_singleline` strips leading/trailing
whitespace, removes every backslash except one immediately preceding a
dollar sign (so `\$` survives), removes all newline characters, and
collapses repeated spaces into single spaces; in particular
`"a \\\nb" ↦ "a b"` and `"echo \\$X"` is preserved. -/
theorem C5_multiline_to_singleline_props :
    multiline_to_singleline "a \\\nb" = "a b" ∧
    multiline_to_singleline "echo \\$X" = "echo \\$X" ∧
    (∀ cmd : String, (multiline_to_singleline cmd).data.all (fun c => c != '\n') = true) ∧
    (∀ cmd : String, noDoubleSpaceB (multiline_to_singleline cmd).data = true) ∧
    (∀ cmd : String, goodBS (multiline_to_singleline cmd).data = true) ∧
    (∀ cmd : String, noEndWS (multiline_to_singleline cmd).data = true) := by
  refine ⟨by decide, by decide, ?_, ?_, ?_, ?_⟩
  · intro cmd
    rw [List.all_eq_true]
    intro a ha
    have h1 : a ∈ removeNewlines (subBackslashKeepDollar (pyStrip cmd.data)) :=
      mem_of_mem_collapseSpaces
        ((List.dropWhile_sublist _).mem (mem_of_mem_pyStripRight ha))
    simp only [removeNewlines, List.mem_filter] at h1
    exact h1.2
  · intro cmd
    exact noDoubleSpaceB_pyStripRight (noDoubleSpaceB_dropWhile _
      (noDoubleSpaceB_collapseSpaces _))
  · intro cmd
    exact goodBS_pyStripRight (goodBS_dropWhile _
      (goodBS_collapseSpaces (goodBS_removeNewlines (goodBS_subBS _))))
  · intro cmd
    simp only [noEndWS, Bool.and_eq_true]
    constructor
    · cases hh : (multiline_to_singleline cmd).data.head? with
      | none => rfl
      | some c =>
          have hdata : (multiline_to_singleline cmd).data =
              pyStripRight ((collapseSpaces (removeNewlines (subBackslashKeepDollar
                (pyStrip cmd.data)))).dropWhile isPySpace) := rfl
          rw [hdata] at hh
          rcases pyStripRight_head? ((collapseSpaces (removeNewlines (subBackslashKeepDollar
            (pyStrip cmd.data)))).dropWhile isPySpace) with e | e
          · rw [e] at hh; cases hh
          · rw [e] at hh
            simp [head?_dropWhile_not hh]
    · cases hh : (multiline_to_singleline cmd).data.getLast? with
      | none => rfl
      | some c =>
          have hdata : (multiline_to_singleline cmd).data =
              pyStripRight ((collapseSpaces (removeNewlines (subBackslashKeepDollar
                (pyStrip cmd.data)))).dropWhile isPySpace) := rfl
          rw [hdata] at hh
          simp [pyStripRight_getLast?_not_ws hh]

/-- C5 counterexample: as stated, the claim says newlines are collapsed into
single spaces, which would make `"a\nb"` map to `"a b"`; the code removes
the newline outright, producing `"ab"`. -/
theorem C5_counterexample : multiline_to_singleline "a\nb" ≠ "a b" := by decide

/-! ### C6: hours_to_slurm_time -/

lemma rhe_natCast (n : ℕ) : rhe ((n : ℚ)) = (n : ℤ) := by
  have h0 : ((n:ℚ)) - ((⌊(n:ℚ)⌋ : ℤ) : ℚ) < 1/2 := by
    rw [Int.floor_natCast]; push_cast; norm_num
  rw [rhe, if_pos h0, Int.floor_natCast]

lemma hours_master (us : ℕ) :
    hours_to_slurm_time ((us : ℚ) / 3600000000) = fmtSecs (us / 1000000) := by
  have h1 : ((us : ℚ) / 3600000000) * 3600000000 = ((us : ℕ) : ℚ) := by
    field_simp
  have d1 : ((us:ℤ)) / 86400000000 = ((us / 1000000 / 86400 : ℕ) : ℤ) := by omega
  have d2 : (((us:ℤ)) % 86400000000) / 1000000 / 3600 = ((us / 1000000 % 86400 / 3600 : ℕ) : ℤ) := by
    omega
  have d3 : ((((us:ℤ)) % 86400000000) / 1000000) % 3600 / 60 = ((us / 1000000 % 3600 / 60 : ℕ) : ℤ) := by
    omega
  have d4 : ((((us:ℤ)) % 86400000000) / 1000000) % 3600 % 60 = ((us / 1000000 % 60 : ℕ) : ℤ) := by
    omega
  simp only [hours_to_slurm_time, h1, rhe_natCast, fmtSecs, d1, d2, d3, d4]

/-- C6: `hours_to_slurm_time` renders a fractional-hour duration as
`DD-HH:MM:SS`, with days obtained by integer division of the total by 24
hours and sub-second remainders truncated to zero: on every whole number of
microseconds (every value reachable from python's float-to-timedelta
conversion) it renders exactly the floor-to-seconds total, and
`25 ↦ "01-01:00:00"`, `0.5 ↦ "00-00:30:00"`. -/
theorem C6_hours_to_slurm_time :
    hours_to_slurm_time 25 = "01-01:00:00" ∧
      hours_to_slurm_time (1/2) = "00-00:30:00" ∧
      ∀ us : ℕ, hours_to_slurm_time ((us : ℚ) / 3600000000) = fmtSecs (us / 1000000) := by
  refine ⟨?_, ?_, hours_master⟩
  · have e : (25 : ℚ) = ((90000000000 : ℕ) : ℚ) / 3600000000 := by norm_num
    rw [e, hours_master]
    decide
  · have e : ((1:ℚ)/2) = ((1800000000 : ℕ) : ℚ) / 3600000000 := by norm_num
    rw [e, hours_master]
    decide

/-! ### submit_job_slurm: infrastructure lemmas -/

lemma iterResult_info (cfg : Cfg) (ext : PyEnv) (lp ld ne fe : String) (i : ℕ) :
    (iterResult cfg ext lp ld ne fe i).info =
      { args := String.intercalate " "
          (shlexSplitSimple ("sbatch " ++ osPathJoin cfg.sbatch_dir (ext.scriptName i))),
        job_id := if cfg.test_run then none else some (chainIds cfg ext (i + 1)),
        script := scriptOf
          (iterArgsList cfg (iterLogPath cfg lp ld ne fe i) (chainIds cfg ext i) i)
          (iterCmd cfg i),
        cmd := iterCmd cfg i,
        log_path := iterLogPath cfg lp ld ne fe i,
        sbatch_args :=
          iterArgsList cfg (iterLogPath cfg lp ld ne fe i) (chainIds cfg ext i) i } := by
  by_cases ht : cfg.test_run <;> simp [iterResult, ht]

lemma iterResult_events (cfg : Cfg) (ext : PyEnv) (lp ld ne fe : String) (i : ℕ) :
    (iterResult cfg ext lp ld ne fe i).events =
      Ev.writeScript (osPathJoin cfg.sbatch_dir (ext.scriptName i))
        (scriptOf (iterArgsList cfg (iterLogPath cfg lp ld ne fe i) (chainIds cfg ext i) i)
          (iterCmd cfg i)) ::
      (if cfg.test_run then []
       else Ev.popen (shlexSplitSimple ("sbatch " ++ osPathJoin cfg.sbatch_dir (ext.scriptName i))) ::
         (match ext.sbatchOutcome i with | none => [Ev.printExc] | some _ => [])) := by
  by_cases ht : cfg.test_run
  · simp [iterResult, ht]
  · cases ho : ext.sbatchOutcome i <;> simp [iterResult, ht, ho]

lemma submit_eq_ok (cfg : Cfg) (ext : PyEnv) (p noext fext : String)
    (hlp : cfg.log_path = some p)
    (hout : hasSub ".out".data p.data = true)
    (hsplit : splitDotsStr (osBasename p) = [noext, fext]) :
    submit_job_slurm cfg ext =
      ((Ev.makedirs cfg.sbatch_dir ::
          (if ext.envHasMemPerCpu then [Ev.envPop "SLURM_MEM_PER_CPU"] else [])) ++
        (((List.range cfg.num_jobs).map
            (fun i => iterResult cfg ext p (osDirname p) noext fext i)).map
          IterOut.events).flatten,
       Except.ok (((List.range cfg.num_jobs).map
            (fun i => iterResult cfg ext p (osDirname p) noext fext i)).map
          IterOut.info)) := by
  simp only [submit_job_slurm, hlp, Option.getD_some, hout, if_true, hsplit]

lemma submit_infos_get (cfg : Cfg) (ext : PyEnv) (p noext fext : String)
    (hlp : cfg.log_path = some p)
    (hout : hasSub ".out".data p.data = true)
    (hsplit : splitDotsStr (osBasename p) = [noext, fext])
    {i : ℕ} {r : JobInfo}
    (hr : (((List.range cfg.num_jobs).map
        (fun i => iterResult cfg ext p (osDirname p) noext fext i)).map
      IterOut.info)[i]? = some r) :
    i < cfg.num_jobs ∧ r = (iterResult cfg ext p (osDirname p) noext fext i).info := by
  by_cases hi : i < cfg.num_jobs
  · refine ⟨hi, ?_⟩
    simp [List.getElem?_map, List.getElem?_range, hi] at hr
    exact hr.symm
  · exfalso
    have hnone : (List.range cfg.num_jobs)[i]? = none :=
      List.getElem?_eq_none (by simpa using hi)
    simp [List.getElem?_map, hnone] at hr

lemma iterCmd_zero (cfg : Cfg) : iterCmd cfg 0 = cfg.shell_scripts := by
  cases h : cfg.shell_scripts_modification_fn <;> simp [iterCmd, h]

lemma iterCmd_pos (cfg : Cfg) (f : String → String) (i : ℕ)
    (hf : cfg.shell_scripts_modification_fn = some f) (hi : i ≠ 0) :
    iterCmd cfg i = f cfg.shell_scripts := by
  simp [iterCmd, hf, hi]

lemma dep_mem_iterArgsList (cfg : Cfg) (lp : String) (jid : ℕ ⊕ String) (i : ℕ)
    (hi : i ≠ 0) :
    ("dependency", "afterok:" ++ jobIdStr jid) ∈ iterArgsList cfg lp jid i := by
  simp [iterArgsList, hi]

lemma iterArgsList_zero_no_dep (cfg : Cfg) (lp : String) (jid : ℕ ⊕ String) (v : String) :
    ("dependency", v) ∉ iterArgsList cfg lp jid 0 := by
  cases hex : cfg.exclude <;> by_cases hg : 0 < cfg.num_gpus <;>
    simp [iterArgsList, hex, hg]

lemma chainIds_zero (cfg : Cfg) (ext : PyEnv) : chainIds cfg ext 0 = Sum.inr "<job_id>" := rfl

lemma chainIds_succ_none (cfg : Cfg) (ext : PyEnv) (i : ℕ)
    (h : ext.sbatchOutcome i = none) :
    chainIds cfg ext (i + 1) = chainIds cfg ext i := by
  by_cases ht : cfg.test_run <;> simp [chainIds, ht, h]

lemma startsWithL_append (p r : List Char) : startsWithL p (p ++ r) = true := by
  induction p with
  | nil => rfl
  | cons c t ih => simp [startsWithL, ih]

lemma hasSub_self_append (p r : List Char) : hasSub p (p ++ r) = true := by
  cases p with
  | nil => cases r <;> simp [hasSub, startsWithL]
  | cons c t =>
      have h1 : startsWithL (c :: t) ((c :: t) ++ r) = true := startsWithL_append _ _
      simp only [List.cons_append] at h1 ⊢
      simp [hasSub, h1]

lemma hasSub_cons (p : List Char) (c : Char) (l : List Char) (h : hasSub p l = true) :
    hasSub p (c :: l) = true := by simp [hasSub, h]

lemma hasSub_append_left (p x l : List Char) (h : hasSub p l = true) :
    hasSub p (x ++ l) = true := by
  induction x with
  | nil => exact h
  | cons c t ih => simpa [List.cons_append] using hasSub_cons p c (t ++ l) ih

lemma renderArgs_append (s t : List (String × String)) :
    renderArgs (s ++ t) = renderArgs s ++ renderArgs t := by
  induction s with
  | nil => simp [renderArgs]
  | cons kv u ih => simp [renderArgs, ih, String.append_assoc]

lemma hasSub_scriptOf_val (args : List (String × String)) (cmd k v : String)
    (h : (k, v) ∈ args) :
    hasSub v.data (scriptOf args cmd).data = true := by
  obtain ⟨s, t, rfl⟩ := List.append_of_mem h
  have hdata : (scriptOf (s ++ (k, v) :: t) cmd).data =
      ("#!/bin/bash\n\n" ++ renderArgs s ++ "#SBATCH --" ++ k ++ "=").data ++
        (v.data ++ ("\n" ++ renderArgs t ++ "\n" ++ cmd).data) := by
    simp [scriptOf, renderArgs_append, renderArgs, String.data_append, List.append_assoc]
  rw [hdata]
  exact hasSub_append_left _ _ _ (hasSub_self_append _ _)

/-! ### Claim theorems about submit_job_slurm -/

/-- C4: a log path lacking the `".out"` marker is rejected synchronously with
a `ValueError`: the event trace is empty, so no script write, no scratch
directory creation, no environment mutation and no subprocess call happen. -/
theorem C4_invalid_path_rejected_before_effects (cfg : Cfg) (ext : PyEnv) (p : String)
    (hlp : cfg.log_path = some p) (hout : hasSub ".out".data p.data = false) :
    submit_job_slurm cfg ext =
      ([], Except.error (PyErr.valueError "log_path must contain \".out\"")) := by
  simp [submit_job_slurm, hlp, hout]

/-- C4 witness: the concrete request with log path `"run.txt"`. -/
theorem C4_witness :
    submit_job_slurm cfgBadPath ext0 =
      ([], Except.error (PyErr.valueError "log_path must contain \".out\"")) :=
  C4_invalid_path_rejected_before_effects cfgBadPath ext0 "run.txt" rfl (by decide)

/-- C10: a path whose filename splits on `'.'` into more than two parts (more
than one dot) but contains `".out"` passes validation, then the unpacking of
the split raises an uncaught `ValueError` — after the scratch directory
creation and the environment pop, before any script write. -/
theorem C10_multidot_unpack_error (cfg : Cfg) (ext : PyEnv) (p : String)
    (hlp : cfg.log_path = some p)
    (hout : hasSub ".out".data p.data = true)
    (hlen : 2 < (splitDotsStr (osBasename p)).length) :
    submit_job_slurm cfg ext =
      (Ev.makedirs cfg.sbatch_dir ::
         (if ext.envHasMemPerCpu then [Ev.envPop "SLURM_MEM_PER_CPU"] else []),
       Except.error (PyErr.valueError "values to unpack (expected 2)")) := by
  simp only [submit_job_slurm, hlp, Option.getD_some, hout, if_true]
  cases hs : splitDotsStr (osBasename p) with
  | nil => exact absurd hlen (by simp [hs])
  | cons a t1 =>
      cases t1 with
      | nil => exact absurd hlen (by simp [hs])
      | cons b t2 =>
          cases t2 with
          | nil => exact absurd hlen (by simp [hs])
          | cons c t3 => rfl

/-- C10 witness: the concrete request with log path `"a.b.out"`. -/
theorem C10_witness :
    submit_job_slurm cfgMultiDot ext0 =
      ([Ev.makedirs "/fsx/wpq/.sbatch", Ev.envPop "SLURM_MEM_PER_CPU"],
       Except.error (PyErr.valueError "values to unpack (expected 2)")) :=
  C10_multidot_unpack_error cfgMultiDot ext0 "a.b.out" rfl (by decide) (by decide)

/-- C2: in a chain with a supplied transformation function, job 0 uses the
original command verbatim and has no dependency directive; every job `i > 0`
carries the directive `dependency = afterok:{job id entering iteration i}`
(the identifier produced by the previous job's submission), its rendered
script contains that `afterok:` text, and its command equals the
transformation applied to the original command (never to the previous
iteration's command). -/
theorem C2_chain_dependency_and_commands (cfg : Cfg) (ext : PyEnv)
    (f : String → String) (p noext fext : String)
    (hfn : cfg.shell_scripts_modification_fn = some f)
    (hn : 1 < cfg.num_jobs)
    (hlp : cfg.log_path = some p)
    (hout : hasSub ".out".data p.data = true)
    (hsplit : splitDotsStr (osBasename p) = [noext, fext]) :
    ∃ infos : List JobInfo,
      (submit_job_slurm cfg ext).2 = Except.ok infos ∧
      infos.length = cfg.num_jobs ∧
      ∀ i r, infos[i]? = some r →
        (i = 0 → r.cmd = cfg.shell_scripts ∧ ∀ v, ("dependency", v) ∉ r.sbatch_args) ∧
        (0 < i → r.cmd = f cfg.shell_scripts ∧
          ("dependency", "afterok:" ++ jobIdStr (chainIds cfg ext i)) ∈ r.sbatch_args ∧
          hasSub ("afterok:" ++ jobIdStr (chainIds cfg ext i)).data r.script.data = true) := by
  have hrun := submit_eq_ok cfg ext p noext fext hlp hout hsplit
  refine ⟨_, by rw [hrun], ?_, ?_⟩
  · simp
  · intro i r hr
    obtain ⟨hi, rfl⟩ := submit_infos_get cfg ext p noext fext hlp hout hsplit hr
    rw [iterResult_info]
    constructor
    · rintro rfl
      exact ⟨iterCmd_zero cfg, fun v => iterArgsList_zero_no_dep cfg _ _ v⟩
    · intro hpos
      refine ⟨iterCmd_pos cfg f i hfn (Nat.pos_iff_ne_zero.1 hpos), ?_, ?_⟩
      · exact dep_mem_iterArgsList cfg _ _ i (Nat.pos_iff_ne_zero.1 hpos)
      · exact hasSub_scriptOf_val _ _ _ _
          (dep_mem_iterArgsList cfg _ _ i (Nat.pos_iff_ne_zero.1 hpos))

/-- C2 witness: in the concrete two-job chain `cfgChain` with transformation
`s ↦ s ++ " v2"`, job 1's command is the transformation of the original
command. -/
theorem C2_witness :
    (((submit_job_slurm cfgChain ext0).2.toOption.getD [])[1]?).map JobInfo.cmd =
      some "echo foo; echo bar v2" := by
  obtain ⟨infos, hres, hlen, hprop⟩ :=
    C2_chain_dependency_and_commands cfgChain ext0 (fun s => s ++ " v2") "run.out" "run" "out"
      rfl (by decide) rfl (by decide) (by decide)
  have hlt : 1 < infos.length := by rw [hlen]; decide
  have h1 : infos[1]? = some infos[1] := List.getElem?_eq_getElem hlt
  have hcmd := (hprop 1 infos[1] h1).2 (by norm_num)
  rw [hres]
  show (infos[1]?).map JobInfo.cmd = _
  rw [h1]
  show some (infos[1].cmd) = _
  rw [hcmd.1]
  decide

/-- C3: an exception from the `sbatch` subprocess is caught, logged
(`printExc` is in the trace) and swallowed: the call still returns one record
per job; the job identifier keeps its previous value, which is the sentinel
`"<job_id>"` when the very first submission fails, and in that case job 1's
directive list references `afterok:<job_id>`. -/
theorem C3_subprocess_exception_swallowed (cfg : Cfg) (ext : PyEnv)
    (p noext fext : String)
    (htr : cfg.test_run = false)
    (hlp : cfg.log_path = some p)
    (hout : hasSub ".out".data p.data = true)
    (hsplit : splitDotsStr (osBasename p) = [noext, fext]) :
    (∀ i, ext.sbatchOutcome i = none → chainIds cfg ext (i + 1) = chainIds cfg ext i) ∧
    (ext.sbatchOutcome 0 = none → chainIds cfg ext 1 = Sum.inr "<job_id>") ∧
    ∃ infos : List JobInfo,
      (submit_job_slurm cfg ext).2 = Except.ok infos ∧
      infos.length = cfg.num_jobs ∧
      (∀ i, i < cfg.num_jobs → ext.sbatchOutcome i = none →
        Ev.printExc ∈ (submit_job_slurm cfg ext).1) ∧
      (1 < cfg.num_jobs → ext.sbatchOutcome 0 = none →
        ∀ r, infos[1]? = some r → ("dependency", "afterok:<job_id>") ∈ r.sbatch_args) := by
  have hrun := submit_eq_ok cfg ext p noext fext hlp hout hsplit
  refine ⟨fun i h => chainIds_succ_none cfg ext i h,
    fun h => by rw [chainIds_succ_none cfg ext 0 h]; rfl,
    _, by rw [hrun], ?_, ?_, ?_⟩
  · simp
  · intro i hi hnone
    rw [hrun]
    refine List.mem_append.2 (Or.inr ?_)
    refine List.mem_flatten.2
      ⟨(iterResult cfg ext p (osDirname p) noext fext i).events, ?_, ?_⟩
    · exact List.mem_map_of_mem _ (List.mem_map_of_mem _ (List.mem_range.2 hi))
    · rw [iterResult_events, htr]
      simp [hnone]
  · intro hn h0 r hr
    obtain ⟨hi, rfl⟩ := submit_infos_get cfg ext p noext fext hlp hout hsplit hr
    rw [iterResult_info]
    have hchain : chainIds cfg ext 1 = Sum.inr "<job_id>" := by
      rw [chainIds_succ_none cfg ext 0 h0]; rfl
    have hmem := dep_mem_iterArgsList cfg
      (iterLogPath cfg p (osDirname p) noext fext 1) (chainIds cfg ext 1) 1 (by norm_num)
    have happ : ("afterok:" ++ "<job_id>" : String) = "afterok:<job_id>" := rfl
    simpa [hchain, jobIdStr, happ] using hmem

/-- C3 witness: in the concrete chain `cfgChain` run in the world `envFail`
where every subprocess call raises, the job id after iteration 0 is still the
sentinel and the exception was logged. -/
theorem C3_witness :
    chainIds cfgChain envFail 1 = Sum.inr "<job_id>" ∧
      Ev.printExc ∈ (submit_job_slurm cfgChain envFail).1 := by
  have h := C3_subprocess_exception_swallowed cfgChain envFail "run.out" "run" "out"
    rfl rfl (by decide) (by decide)
  obtain ⟨infos, hres, hlen, hpe, hdep⟩ := h.2.2
  exact ⟨h.2.1 rfl, hpe 0 (by decide) rfl⟩

/-! ### C7: distinct log paths -/

lemma digitChar_inj_lt : ∀ a : ℕ, a < 10 → ∀ b : ℕ, b < 10 →
    Nat.digitChar a = Nat.digitChar b → a = b := by decide

lemma natDecAux_eq_digits : ∀ f n : ℕ, n ≤ f →
    natDecAux f n = (Nat.digits 10 n).map Nat.digitChar := by
  intro f
  induction f with
  | zero =>
      intro n h
      have hn : n = 0 := Nat.le_zero.1 h
      subst hn
      simp [natDecAux]
  | succ f ih =>
      intro n h
      cases n with
      | zero => simp [natDecAux]
      | succ m =>
          simp only [natDecAux]
          rw [ih ((m + 1) / 10) (by omega)]
          rw [Nat.digits_def' (by norm_num : (1:ℕ) < 10) (Nat.succ_pos m)]
          rfl

lemma map_digitChar_injOn : ∀ xs ys : List ℕ, (∀ d ∈ xs, d < 10) → (∀ d ∈ ys, d < 10) →
    xs.map Nat.digitChar = ys.map Nat.digitChar → xs = ys := by
  intro xs
  induction xs with
  | nil =>
      intro ys _ _ h
      cases ys with
      | nil => rfl
      | cons b u => simp at h
  | cons a t ih =>
      intro ys hx hy h
      cases ys with
      | nil => simp at h
      | cons b u =>
          simp only [List.map_cons, List.cons.injEq] at h
          have hab : a = b := digitChar_inj_lt a (hx a (List.mem_cons_self _ _)) b
            (hy b (List.mem_cons_self _ _)) h.1
          subst hab
          rw [ih u (fun d hd => hx d (List.mem_cons_of_mem _ hd))
            (fun d hd => hy d (List.mem_cons_of_mem _ hd)) h.2]

lemma natDec_data (n : ℕ) (hn : n ≠ 0) :
    (natDec n).data = ((Nat.digits 10 n).map Nat.digitChar).reverse := by
  simp [natDec, hn, natDecAux_eq_digits n n le_rfl]

lemma natDec_data_inj {m n : ℕ} (h : (natDec m).data = (natDec n).data) : m = n := by
  by_cases hm : m = 0 <;> by_cases hn : n = 0
  · exact hm.trans hn.symm
  · exfalso
    subst hm
    rw [natDec_data n hn] at h
    have hrev : (Nat.digits 10 n).map Nat.digitChar = ['0'] := by
      have := congrArg List.reverse h
      simpa [natDec] using this.symm
    have h0 : Nat.digits 10 n = [0] := map_digitChar_injOn _ [0]
      (fun d hd => Nat.digits_lt_base (by norm_num) hd) (by simp)
      (by simpa using hrev)
    have hofd := Nat.ofDigits_digits 10 n
    rw [h0] at hofd
    simp [Nat.ofDigits] at hofd
    exact hn hofd.symm
  · exfalso
    subst hn
    rw [natDec_data m hm] at h
    have hrev : (Nat.digits 10 m).map Nat.digitChar = ['0'] := by
      have := congrArg List.reverse h
      simpa [natDec] using this
    have h0 : Nat.digits 10 m = [0] := map_digitChar_injOn _ [0]
      (fun d hd => Nat.digits_lt_base (by norm_num) hd) (by simp)
      (by simpa using hrev)
    have hofd := Nat.ofDigits_digits 10 m
    rw [h0] at hofd
    simp [Nat.ofDigits] at hofd
    exact hm hofd.symm
  · rw [natDec_data m hm, natDec_data n hn] at h
    have hmaps := List.reverse_injective h
    have hd : Nat.digits 10 m = Nat.digits 10 n := map_digitChar_injOn _ _
      (fun d hd => Nat.digits_lt_base (by norm_num) hd)
      (fun d hd => Nat.digits_lt_base (by norm_num) hd) hmaps
    have h1 := Nat.ofDigits_digits 10 m
    have h2 := Nat.ofDigits_digits 10 n
    rw [hd] at h1
    exact h1.symm.trans h2

lemma string_data_inj {s t : String} (h : s.data = t.data) : s = t := by
  cases s; cases t; exact congrArg String.mk h

lemma mem_splitOnDot_chars : ∀ (l : List Char) (part : List Char),
    part ∈ splitOnDot l → ∀ c ∈ part, c ∈ l := by
  intro l
  induction l with
  | nil =>
      intro part hp c hc
      simp [splitOnDot] at hp
      subst hp
      cases hc
  | cons a r ih =>
      intro part hp c hc
      rcases hsp : splitOnDot r with _ | ⟨h1, t1⟩
      · simp only [splitOnDot, hsp] at hp
        simp at hp
        subst hp
        cases hc
      · simp only [splitOnDot, hsp] at hp
        by_cases ha : a = '.'
        · rw [if_pos ha] at hp
          rcases List.mem_cons.1 hp with rfl | hp2
          · cases hc
          · exact List.mem_cons_of_mem _ (ih part (by rw [hsp]; exact hp2) c hc)
        · rw [if_neg ha] at hp
          rcases List.mem_cons.1 hp with rfl | hp2
          · rcases List.mem_cons.1 hc with rfl | hc2
            · exact List.mem_cons_self _ _
            · exact List.mem_cons_of_mem _
                (ih h1 (by rw [hsp]; exact List.mem_cons_self _ _) c hc2)
          · exact List.mem_cons_of_mem _
              (ih part (by rw [hsp]; exact List.mem_cons_of_mem _ hp2) c hc)

lemma osBasename_no_slash (p : String) : ∀ c ∈ (osBasename p).data, c ≠ '/' := by
  intro c hc
  have hc2 : c ∈ p.data.reverse.takeWhile (fun c => c != '/') := by
    simpa [osBasename] using hc
  have := List.mem_takeWhile_imp hc2
  simpa using this

lemma split_parts_data (s a b : String) (h : splitDotsStr s = [a, b]) :
    splitOnDot s.data = [a.data, b.data] := by
  rcases hs : splitOnDot s.data with _ | ⟨l1, _ | ⟨l2, _ | ⟨l3, t⟩⟩⟩ <;>
    rw [splitDotsStr, hs] at h <;> simp at h
  rw [← h.1, ← h.2]

lemma append_left_cancel_str {s x y : String} (h : s ++ x = s ++ y) : x = y := by
  have hd := congrArg String.data h
  simp only [String.data_append] at hd
  exact string_data_inj (List.append_cancel_left hd)

lemma osPathJoin_right_inj (d : String) {x y : String}
    (hx : x.data.head? ≠ some '/') (hy : y.data.head? ≠ some '/')
    (h : osPathJoin d x = osPathJoin d y) : x = y := by
  simp only [osPathJoin] at h
  rw [if_neg hx, if_neg hy] at h
  by_cases hd : d = "" ∨ d.data.getLast? = some '/'
  · rw [if_pos hd, if_pos hd] at h
    exact append_left_cancel_str h
  · rw [if_neg hd, if_neg hd] at h
    exact append_left_cancel_str h

lemma append_middle_cancel {A B D X Y : List Char}
    (h : A ++ (B ++ (X ++ D)) = A ++ (B ++ (Y ++ D))) : X = Y :=
  List.append_cancel_right (List.append_cancel_left (List.append_cancel_left h))

lemma iterLogPath_inj (cfg : Cfg) (p noext fext : String) (hn : 1 < cfg.num_jobs)
    (hnoslash : ∀ c ∈ noext.data, c ≠ '/') {i j : ℕ}
    (hij : iterLogPath cfg p (osDirname p) noext fext i =
      iterLogPath cfg p (osDirname p) noext fext j) : i = j := by
  simp only [iterLogPath, if_pos hn] at hij
  have hx : ∀ k : ℕ,
      (noext ++ "_" ++ natDec (k + 1) ++ ":" ++ natDec cfg.num_jobs ++ "." ++ fext).data.head?
        ≠ some '/' := by
    intro k
    have hdata :
        (noext ++ "_" ++ natDec (k + 1) ++ ":" ++ natDec cfg.num_jobs ++ "." ++ fext).data =
          noext.data ++ ('_' ::
            ((natDec (k + 1)).data ++ (":".data ++ ((natDec cfg.num_jobs).data ++
              (".".data ++ fext.data))))) := by
      simp [String.data_append]
    rw [hdata]
    cases hne : noext.data with
    | nil => simp
    | cons a t =>
        have ha := hnoslash a (by rw [hne]; exact List.mem_cons_self _ _)
        simp [ha]
  have hxy := osPathJoin_right_inj (osDirname p) (hx i) (hx j) hij
  have hdat := congrArg String.data hxy
  simp only [String.data_append, List.append_assoc] at hdat
  have hnd : (natDec (i + 1)).data = (natDec (j + 1)).data := append_middle_cancel hdat
  have := natDec_data_inj hnd
  omega

/-- C7: with `num_jobs > 1` every job's log path is the input path with
`_{i+1}:{num_jobs}` injected before the file extension, so the paths of
distinct jobs in a chain are pairwise distinct; with `num_jobs = 1` the path
is used unmodified; concretely `num_jobs = 2` with `"run.out"` yields
`"run_1:2.out"` and `"run_2:2.out"`. -/
theorem C7_log_path_suffix_distinct (cfg : Cfg) (ext : PyEnv) (p noext fext : String)
    (hlp : cfg.log_path = some p)
    (hout : hasSub ".out".data p.data = true)
    (hsplit : splitDotsStr (osBasename p) = [noext, fext]) :
    ∃ infos : List JobInfo,
      (submit_job_slurm cfg ext).2 = Except.ok infos ∧
      infos.length = cfg.num_jobs ∧
      (∀ i r, infos[i]? = some r →
        r.log_path =
          if 1 < cfg.num_jobs then
            osPathJoin (osDirname p)
              (noext ++ "_" ++ natDec (i + 1) ++ ":" ++ natDec cfg.num_jobs ++ "." ++ fext)
          else p) ∧
      (∀ (i j : ℕ) (ri rj : JobInfo), infos[i]? = some ri → infos[j]? = some rj → i ≠ j →
        1 < cfg.num_jobs → ri.log_path ≠ rj.log_path) ∧
      ((submit_job_slurm cfgChain ext0).2.toOption.map (fun l => l.map JobInfo.log_path) =
        some ["run_1:2.out", "run_2:2.out"]) := by
  have hrun := submit_eq_ok cfg ext p noext fext hlp hout hsplit
  refine ⟨_, by rw [hrun], by simp, ?_, ?_, by decide⟩
  · intro i r hr
    obtain ⟨hi, rfl⟩ := submit_infos_get cfg ext p noext fext hlp hout hsplit hr
    rw [iterResult_info]
    rfl
  · intro i j ri rj hri hrj hij hn
    obtain ⟨hi, rfl⟩ := submit_infos_get cfg ext p noext fext hlp hout hsplit hri
    obtain ⟨hj, rfl⟩ := submit_infos_get cfg ext p noext fext hlp hout hsplit hrj
    rw [iterResult_info, iterResult_info]
    intro heq
    have hnoslash : ∀ c ∈ noext.data, c ≠ '/' := by
      intro c hc
      have hparts := split_parts_data (osBasename p) noext fext hsplit
      have hmem : c ∈ (osBasename p).data :=
        mem_splitOnDot_chars _ noext.data
          (by rw [hparts]; exact List.mem_cons_self _ _) c hc
      exact osBasename_no_slash p c hmem
    exact hij (iterLogPath_inj cfg p noext fext hn hnoslash heq)

/-- C7 witness: the two-job chain `cfgChain` with log path `"run.out"` gets
the two distinct rendered log paths. -/
theorem C7_witness :
    (submit_job_slurm cfgChain ext0).2.toOption.map (fun l => l.map JobInfo.log_path) =
      some ["run_1:2.out", "run_2:2.out"] := by
  obtain ⟨infos, _, _, _, _, hconc⟩ :=
    C7_log_path_suffix_distinct cfgChain ext0 "run.out" "run" "out" rfl (by decide) (by decide)
  exact hconc

/-! ### C8: dry run -/

lemma wsSplitAux_word : ∀ (w cur : List Char), w ≠ [] →
    (∀ c ∈ w, isPySpace c = false) → wsSplitAux cur w = [cur.reverse ++ w] := by
  intro w
  induction w with
  | nil => intro cur h _; exact absurd rfl h
  | cons c r ih =>
      intro cur _ hws
      have hc : isPySpace c = false := hws c (List.mem_cons_self _ _)
      simp only [wsSplitAux]
      rw [if_neg (by simp [hc])]
      cases hr : r with
      | nil =>
          subst hr
          simp [wsSplitAux, List.reverse_cons]
      | cons d t =>
          rw [← hr]
          rw [ih (c :: cur) (by rw [hr]; simp)
            (fun x hx => hws x (List.mem_cons_of_mem _ hx))]
          simp [List.reverse_cons]

lemma wsSplitAux_word_space : ∀ (w cur rest : List Char), w ≠ [] →
    (∀ c ∈ w, isPySpace c = false) →
    wsSplitAux cur (w ++ ' ' :: rest) = (cur.reverse ++ w) :: wsSplitAux [] rest := by
  intro w
  induction w with
  | nil => intro cur rest h _; exact absurd rfl h
  | cons c r ih =>
      intro cur rest _ hws
      have hc : isPySpace c = false := hws c (List.mem_cons_self _ _)
      simp only [List.cons_append, wsSplitAux]
      rw [if_neg (by simp [hc])]
      cases hr : r with
      | nil =>
          subst hr
          simp only [List.nil_append, wsSplitAux]
          rw [if_pos (by decide), if_neg (by simp)]
          simp [List.reverse_cons]
      | cons d t =>
          rw [← hr]
          show wsSplitAux (c :: cur) (r ++ ' ' :: rest) =
            (cur.reverse ++ c :: r) :: wsSplitAux [] rest
          rw [ih (c :: cur) rest (by rw [hr]; simp)
            (fun x hx => hws x (List.mem_cons_of_mem _ hx))]
          simp [List.reverse_cons]

lemma shlexSplitSimple_sbatch (path : String) (hne : path.data ≠ [])
    (hws : ∀ c ∈ path.data, isPySpace c = false) :
    shlexSplitSimple ("sbatch " ++ path) = ["sbatch", path] := by
  have hdata : ("sbatch " ++ path).data = "sbatch".data ++ ' ' :: path.data := rfl
  simp only [shlexSplitSimple, hdata]
  rw [wsSplitAux_word_space "sbatch".data [] path.data (by decide) (by decide)]
  rw [wsSplitAux_word path.data [] hne hws]
  simp only [List.map_cons, List.map_nil, List.reverse_nil, List.nil_append]

lemma intercalate_sbatch (path : String) :
    String.intercalate " " ["sbatch", path] = "sbatch " ++ path := rfl

lemma flatten_singleton_map {α β : Type} (f : α → β) (l : List α) :
    (l.map (fun a => [f a])).flatten = l.map f := by
  induction l with
  | nil => rfl
  | cons a t ih => simp [ih]

/-- C8: in dry-run mode no subprocess event occurs and no record carries a
job identifier, yet exactly one script file per chain job is written (the
write events of the trace are exactly one per job, in order), and each
record's `args` field is the exact `sbatch` command line that would have been
used. -/
theorem C8_dry_run_writes_scripts_no_popen (cfg : Cfg) (ext : PyEnv)
    (p noext fext : String)
    (htr : cfg.test_run = true)
    (hlp : cfg.log_path = some p)
    (hout : hasSub ".out".data p.data = true)
    (hsplit : splitDotsStr (osBasename p) = [noext, fext])
    (hsp : ∀ i, i < cfg.num_jobs →
      (osPathJoin cfg.sbatch_dir (ext.scriptName i)).data ≠ [] ∧
      ∀ c ∈ (osPathJoin cfg.sbatch_dir (ext.scriptName i)).data, isPySpace c = false) :
    ∃ infos : List JobInfo,
      (submit_job_slurm cfg ext).2 = Except.ok infos ∧
      infos.length = cfg.num_jobs ∧
      (∀ argv : List String, Ev.popen argv ∉ (submit_job_slurm cfg ext).1) ∧
      (∀ r ∈ infos, r.job_id = none) ∧
      ((submit_job_slurm cfg ext).1.filter isWriteEv =
        (List.range cfg.num_jobs).map (fun i =>
          Ev.writeScript (osPathJoin cfg.sbatch_dir (ext.scriptName i))
            ((iterResult cfg ext p (osDirname p) noext fext i).info.script))) ∧
      (∀ (i : ℕ) (r : JobInfo), infos[i]? = some r →
        r.args = "sbatch " ++ osPathJoin cfg.sbatch_dir (ext.scriptName i)) := by
  have hrun := submit_eq_ok cfg ext p noext fext hlp hout hsplit
  refine ⟨_, by rw [hrun], by simp, ?_, ?_, ?_, ?_⟩
  · intro argv hmem
    rw [hrun] at hmem
    rcases List.mem_append.1 hmem with h | h
    · rcases List.mem_cons.1 h with h | h
      · simp at h
      · by_cases he : ext.envHasMemPerCpu <;> simp [he] at h
    · obtain ⟨l, hl, hmem2⟩ := List.mem_flatten.1 h
      obtain ⟨x, hx, rfl⟩ := List.mem_map.1 hl
      obtain ⟨i, hi, rfl⟩ := List.mem_map.1 hx
      rw [iterResult_events] at hmem2
      simp [htr] at hmem2
  · intro r hr
    obtain ⟨x, hx, rfl⟩ := List.mem_map.1 hr
    obtain ⟨i, hi, rfl⟩ := List.mem_map.1 hx
    rw [iterResult_info]
    simp [htr]
  · rw [hrun]
    rw [List.filter_append]
    have h0 : (Ev.makedirs cfg.sbatch_dir ::
        (if ext.envHasMemPerCpu then [Ev.envPop "SLURM_MEM_PER_CPU"] else [])).filter
          isWriteEv = [] := by
      by_cases he : ext.envHasMemPerCpu <;> simp [he, isWriteEv, List.filter]
    rw [h0, List.nil_append]
    have hev : ((List.range cfg.num_jobs).map
        (fun i => iterResult cfg ext p (osDirname p) noext fext i)).map IterOut.events =
        (List.range cfg.num_jobs).map (fun i =>
          [Ev.writeScript (osPathJoin cfg.sbatch_dir (ext.scriptName i))
            ((iterResult cfg ext p (osDirname p) noext fext i).info.script)]) := by
      rw [List.map_map]
      refine List.map_congr_left ?_
      intro i _
      simp only [Function.comp]
      rw [iterResult_events, iterResult_info]
      simp [htr]
    rw [hev, flatten_singleton_map]
    refine List.filter_eq_self.2 ?_
    intro e he
    obtain ⟨i, hi, rfl⟩ := List.mem_map.1 he
    rfl
  · intro i r hr
    obtain ⟨hi, rfl⟩ := submit_infos_get cfg ext p noext fext hlp hout hsplit hr
    rw [iterResult_info]
    show String.intercalate " "
      (shlexSplitSimple ("sbatch " ++ osPathJoin cfg.sbatch_dir (ext.scriptName i))) = _
    rw [shlexSplitSimple_sbatch _ (hsp i hi).1 (hsp i hi).2, intercalate_sbatch]

/-- C8 witness: the concrete dry-run request `cfgDry` writes two scripts, has
no populated job id, and records the exact command line. -/
theorem C8_witness :
    ((submit_job_slurm cfgDry ext0).1.filter isWriteEv).length = 2 ∧
      (((submit_job_slurm cfgDry ext0).2.toOption.getD [])[0]?).map JobInfo.job_id =
        some none ∧
      (((submit_job_slurm cfgDry ext0).2.toOption.getD [])[0]?).map JobInfo.args =
        some "sbatch /fsx/wpq/.sbatch/2024-01-01_00:00:00_uuid0.sh" := by
  obtain ⟨infos, hres, hlen, hnp, hjid, hfil, hargs⟩ :=
    C8_dry_run_writes_scripts_no_popen cfgDry ext0 "run.out" "run" "out"
      rfl rfl (by decide) (by decide) (by decide)
  have hlt : 0 < infos.length := by rw [hlen]; decide
  have h0 : infos[0]? = some infos[0] := List.getElem?_eq_getElem hlt
  refine ⟨?_, ?_, ?_⟩
  · rw [hfil]; simp only [List.length_map, List.length_range]; decide
  · rw [hres]
    show ((some infos).getD [])[0]?.map JobInfo.job_id = some none
    simp [h0, hjid infos[0] (List.getElem_mem hlt)]
  · rw [hres]
    show (infos[0]?).map JobInfo.args = _
    rw [h0]
    show some (infos[0].args) = _
    rw [hargs 0 infos[0] h0]
    decide

/-! ### C9: list argument never terminates -/

/-- C9: for a non-empty list argument, `submit_job_slurm`'s list branch calls
itself with the whole unchanged list (the comprehension variable is unused),
so no amount of fuel makes it return: the call never terminates (python's
`RecursionError`). -/
theorem C9_list_argument_never_terminates (cfg : Cfg) (ext : PyEnv) (fuel : ℕ)
    (l : List String) (h : l ≠ []) :
    submit_any cfg ext fuel (Sum.inr l) = none := by
  obtain ⟨a, t, rfl⟩ := List.exists_cons_of_ne_nil h
  induction fuel with
  | zero => rfl
  | succ n ih =>
      simp only [submit_any]
      simp only [List.mapM, ih]
      rfl

/-- C9 witness: five units of fuel do not suffice for the one-element list
(nor does any other amount). -/
theorem C9_witness : submit_any cfgDry ext0 5 (Sum.inr ["echo hi"]) = none :=
  C9_list_argument_never_terminates cfgDry ext0 5 ["echo hi"] (by decide)
